import Mathlib

/-!
Verification development for the GenreTourist acquisition-and-resolution
pipeline (Express server, `server/index.js`).  The JavaScript functions are
shallowly embedded as executable Lean definitions over `List Char` / `String`,
and the claims of the design document are settled as theorems about them.
-/

namespace GenreTourist

/-! ### JavaScript character classes

`isJsSpace` is the character set matched by the regex class `\s` (which is
also the set stripped by `String.prototype.trim`).  `isSlugChar` is the class
`[a-z0-9-]` kept by `formatGenreSlug`; `isDigitChar` is `[0-9]`. -/

def isJsSpace (c : Char) : Bool :=
  let n := c.toNat
  n == 9 || n == 10 || n == 11 || n == 12 || n == 13 || n == 32 ||
  n == 160 || n == 5760 || (8192 ≤ n && n ≤ 8202) || n == 8232 ||
  n == 8233 || n == 8239 || n == 8287 || n == 12288 || n == 65279

def isSlugChar (c : Char) : Bool :=
  let n := c.toNat
  (97 ≤ n && n ≤ 122) || (48 ≤ n && n ≤ 57) || n == 45

def isDigitChar (c : Char) : Bool :=
  48 ≤ c.toNat && c.toNat ≤ 57

/-- Characters treated as a dash by the `norm` helper regex `[–—-]`
(en dash, em dash, ASCII hyphen). -/
def isDashChar (c : Char) : Bool :=
  c.toNat == 8211 || c.toNat == 8212 || c.toNat == 45

/-! ### `String.prototype.trim` and `toLowerCase` -/

/-- JS `trim`: drop leading and trailing `\s` characters. -/
def jsTrimL (l : List Char) : List Char :=
  ((l.dropWhile isJsSpace).reverse.dropWhile isJsSpace).reverse

def jsTrimStr (s : String) : String := ⟨jsTrimL s.data⟩

/-- JS `toLowerCase`, modelled per character (the inputs this pipeline
lowercases are ASCII, where `Char.toLower` agrees with JS). -/
def jsLowerL (l : List Char) : List Char := l.map Char.toLower

def jsLowerStr (s : String) : String := ⟨jsLowerL s.data⟩

/-! ### Regex replace `\s+` -> single replacement character

`collapseRunsAux rep sawSpace l` replaces every maximal run of `\s`
characters in `l` by the single character `rep`, exactly as the global
regex replace `replace(/\s+/g, rep)` does. -/

def collapseRunsAux (rep : Char) : Bool → List Char → List Char
  | _, [] => []
  | inRun, c :: rest =>
    if isJsSpace c then
      if inRun then collapseRunsAux rep true rest
      else rep :: collapseRunsAux rep true rest
    else c :: collapseRunsAux rep false rest

def collapseRuns (rep : Char) (l : List Char) : List Char :=
  collapseRunsAux rep false l

/-! ### `formatGenreSlug`

Source (server/index.js):
```
function formatGenreSlug(genre) {
  return genre
    .toLowerCase()
    .trim()
    .replace(/\s+/g, '-')
    .replace(/[^a-z0-9-]/g, '');
}
```
-/

def formatGenreSlugL (l : List Char) : List Char :=
  (collapseRuns '-' (jsTrimL (jsLowerL l))).filter isSlugChar

def formatGenreSlug (s : String) : String := ⟨formatGenreSlugL s.data⟩

/-! ### Substring search (JS `includes` / `indexOf`)

`firstMatchIdx pat l` is the least index at which `pat` occurs in `l`
(`String.prototype.indexOf`); `none` encodes the JS result `-1`. -/

def firstMatchIdx (pat : List Char) : List Char → Option Nat
  | [] => if pat.isPrefixOf [] then some 0 else none
  | c :: rest =>
    if pat.isPrefixOf (c :: rest) then some 0
    else (firstMatchIdx pat rest).map (· + 1)

/-- JS `s.includes(pat)`. -/
def hasSubL (l pat : List Char) : Bool := (firstMatchIdx pat l).isSome

def hasSubStr (s pat : String) : Bool := hasSubL s.data pat.data

def strTake (s : String) (n : Nat) : String := ⟨s.data.take n⟩

def strDrop (s : String) (n : Nat) : String := ⟨s.data.drop n⟩

/-- JS `s.startsWith(pre)`. -/
def strStarts (s pre : String) : Bool := pre.data.isPrefixOf s.data

/-! ### `parseInt(s, 10)`

JS `parseInt` skips leading whitespace, reads an optional sign and then the
longest prefix of decimal digits; it yields `NaN` (here `none`) when no digit
is read. -/

def digitsVal : List Char → Nat → Nat
  | [], acc => acc
  | c :: rest, acc => digitsVal rest (acc * 10 + (c.toNat - 48))

def parseDigits (l : List Char) : Option Nat :=
  let d := l.takeWhile isDigitChar
  if d.isEmpty then none else some (digitsVal d 0)

def parseIntJS (s : String) : Option Int :=
  let l := s.data.dropWhile isJsSpace
  match l with
  | '-' :: rest => (parseDigits rest).map (fun n => -(n : Int))
  | '+' :: rest => (parseDigits rest).map (fun n => (n : Int))
  | _ => (parseDigits l).map (fun n => (n : Int))

/-! ### Stable descending sort

JS `Array.prototype.sort` with comparator `(a, b) => key(b) - key(a)` is a
stable sort placing larger keys first; stable insertion sort below implements
exactly that ordering. -/

def insDesc {α : Type} (key : α → Int) (x : α) : List α → List α
  | [] => [x]
  | y :: ys => if key y ≤ key x then x :: y :: ys else y :: insDesc key x ys

def sortDescBy {α : Type} (key : α → Int) : List α → List α
  | [] => []
  | x :: xs => insDesc key x (sortDescBy key xs)

/-! ### Album-page track extraction (`scrapeAotyAlbumTracks`)

The pure in-page part of `scrapeAotyAlbumTracks` (the `page.evaluate`
closure), over the table structure it reads: a document is a list of tables,
a table a list of rows, a row the list of its `td` text contents (trimmed,
as the closure trims each cell).

```
const tables = document.querySelectorAll('table');
for (const table of tables) {
  const rows = Array.from(table.querySelectorAll('tr'));
  const parsed = rows.map(...cells...).filter((row) => row.length >= 3);
  if (parsed.length < 2) continue;
  const withRating = [];
  for (const row of parsed) {
    const rating = parseInt(row[2], 10);
    if (Number.isNaN(rating) || rating < 0 || rating > 100) continue;
    const nameAndDuration = row[1] || '';
    const name = nameAndDuration.replace(/\d{1,2}:\d{2}$/, '').trim();
    if (!name) continue;
    withRating.push({ name, rating });
  }
  if (withRating.length >= 2) {
    withRating.sort((a, b) => b.rating - a.rating);
    return withRating.map((x) => x.name);
  }
}
return [];
```
-/

/-- Does a 5-character list have the shape `dd:dd`? -/
def isDur5 : List Char → Bool
  | [a, b, c, d, e] =>
    isDigitChar a && isDigitChar b && c == ':' && isDigitChar d && isDigitChar e
  | _ => false

/-- Does a 4-character list have the shape `d:dd`? -/
def isDur4 : List Char → Bool
  | [a, c, d, e] => isDigitChar a && c == ':' && isDigitChar d && isDigitChar e
  | _ => false

/-- Replace of the anchored regex `\d{1,2}:\d{2}$` by the empty string: the
leftmost (hence longest, 5-then-4 characters) suffix of that shape is
removed, if present. -/
def stripDurL (l : List Char) : List Char :=
  if 5 ≤ l.length ∧ isDur5 (l.drop (l.length - 5)) then l.take (l.length - 5)
  else if 4 ≤ l.length ∧ isDur4 (l.drop (l.length - 4)) then l.take (l.length - 4)
  else l

def stripDurStr (s : String) : String := ⟨stripDurL s.data⟩

structure RatedRow where
  name : String
  rating : Int
deriving DecidableEq, Repr

/-- The rows of one table that survive the rating/name checks (`withRating`). -/
def usableRows (table : List (List String)) : List RatedRow :=
  (table.filter (fun row => 3 ≤ row.length)).filterMap (fun row =>
    match parseIntJS (row.getD 2 "") with
    | none => none
    | some r =>
      if r < 0 ∨ 100 < r then none
      else
        let name := jsTrimStr (stripDurStr (row.getD 1 ""))
        if name.isEmpty then none else some ⟨name, r⟩)

def scrapeAotyAlbumTracksEval : List (List (List String)) → List String
  | [] => []
  | table :: rest =>
    if (table.filter (fun row => 3 ≤ row.length)).length < 2 then
      scrapeAotyAlbumTracksEval rest
    else
      let withRating := usableRows table
      if 2 ≤ withRating.length then
        (sortDescBy (fun x => x.rating) withRating).map RatedRow.name
      else scrapeAotyAlbumTracksEval rest

/-- A cell is "purely numeric" (the design document's phrase) when it is a
non-empty string of decimal digits. -/
def isPurelyNumeric (s : String) : Bool := !s.isEmpty && s.data.all isDigitChar

/-! ### The `norm` helper of `POST /api/generate-playlist`

```
function norm(s) {
  return (s || '')
    .toLowerCase()
    .replace(/\s*\([^)]*\)/g, '')
    .replace(/\s*[–—-]\s*.*$/, '')
    .replace(/\s+/g, ' ')
    .trim();
}
```
-/

/-- Drop characters up to and including the first `)`; `none` if there is no
`)` (then the regex `\s*\([^)]*\)` cannot match at this `(`). -/
def splitAfterClose : List Char → Option (List Char)
  | [] => none
  | c :: rest => if c == ')' then some rest else splitAfterClose rest

/-- If `l` begins with `\s*\([^)]*\)`, the remainder after that match. -/
def parenMatchRest (l : List Char) : Option (List Char) :=
  match l.dropWhile isJsSpace with
  | '(' :: r => splitAfterClose r
  | _ => none

/-- Global replace of `\s*\([^)]*\)` by the empty string.  Each recursive
step consumes at least one character, so fuel `l.length` never runs out; the
fuel argument only makes the recursion structural. -/
def stripParensFuel : Nat → List Char → List Char
  | 0, l => l
  | fuel + 1, l =>
    match parenMatchRest l with
    | some rest => stripParensFuel fuel rest
    | none =>
      match l with
      | [] => []
      | c :: t => c :: stripParensFuel fuel t

def stripParens (l : List Char) : List Char := stripParensFuel l.length l

/-- Replace of `\s*[–—-]\s*.*$` by the empty string: everything from the
first dash to the end is dropped, together with the whitespace run
immediately before the dash.  `pendingWs` holds the whitespace seen since
the last non-whitespace character. -/
def stripDashTailAux (acc pendingWs : List Char) : List Char → List Char
  | [] => acc ++ pendingWs
  | c :: rest =>
    if isDashChar c then acc
    else if isJsSpace c then stripDashTailAux acc (pendingWs ++ [c]) rest
    else stripDashTailAux (acc ++ pendingWs ++ [c]) [] rest

def stripDashTail (l : List Char) : List Char := stripDashTailAux [] [] l

/-- The `norm` title normalizer (named `norm` in the source). -/
def normName (s : String) : String :=
  ⟨jsTrimL (collapseRuns ' ' (stripDashTail (stripParens (jsLowerL s.data))))⟩

/-! ### Album entries and the tiered chart resolver (`getChartData`)

`scrapeAotyWithPlaywright` returns `{ albums, success, notFound }` and every
return site satisfies `success = (albums.length > 0)`; a thrown error is
modelled by `Except.error`.  `scrapeAotyWithZenRows` never throws (it catches
internally) and likewise returns `success = (albums.length > 0)` at every
return site.  Both scrapers are network-bound, so the resolver is
parameterised by their outcomes. -/

structure AlbumEntry where
  rank : Nat
  artist : String
  album : String
  albumUrl : Option String
deriving DecidableEq, Repr

structure Tier1Result where
  albums : List AlbumEntry
  success : Bool
  notFound : Bool
deriving DecidableEq, Repr

structure Tier2Result where
  albums : List AlbumEntry
  success : Bool
deriving DecidableEq, Repr

/-- The ZenRows leg of `getChartData`; the flag records that tier 2 was
invoked. -/
def runZenRowsTier (t2 : Tier2Result) : List AlbumEntry × Bool :=
  if t2.success && !t2.albums.isEmpty then (t2.albums, true) else ([], true)

/--
```
async function getChartData(genreSlug) {
  try {
    const result = await scrapeAotyWithPlaywright(genreSlug);
    if (result.success && result.albums.length > 0) return { albums: result.albums };
  } catch (err) { ... }
  const zenRows = await scrapeAotyWithZenRows(genreSlug);
  if (zenRows.success && zenRows.albums.length > 0) return { albums: zenRows.albums };
  return { albums: [] };
}
```
The second component records whether tier 2 was invoked. -/
def getChartData (tier1 : Except Unit Tier1Result) (tier2 : Tier2Result) :
    List AlbumEntry × Bool :=
  match tier1 with
  | .ok r => if r.success && !r.albums.isEmpty then (r.albums, false) else runZenRowsTier tier2
  | .error _ => runZenRowsTier tier2

/-! ### The chart request handler (`GET /api/chart/:genre`) -/

/-- A row of the `rym_charts_cache` table as the handler reads it.  `data`
is `none` for a SQL `NULL` (JS falsy); note a stored empty array is truthy
in JS and is therefore `some []` here.  Timestamps are epoch milliseconds;
`updatedAt = none` models a null `updated_at`, in which case
`new Date(cachedData.updated_at || cachedData.created_at)` falls back to
`created_at`. -/
structure CacheRecord where
  data : Option (List AlbumEntry)
  updatedAt : Option Int
  createdAt : Int
deriving DecidableEq, Repr

def cacheTime (r : CacheRecord) : Int := r.updatedAt.getD r.createdAt

inductive ChartResponse where
  | ok (genre : String) (data : List AlbumEntry) (cached : Bool)
  | chartMissing (genre : String)
  | badRequest
deriving DecidableEq, Repr

inductive CacheOp where
  | update (genre : String) (data : List AlbumEntry)
  | insert (genre : String) (data : List AlbumEntry)
deriving DecidableEq, Repr

def CacheOp.key : CacheOp → String
  | .update g _ => g
  | .insert g _ => g

structure ChartTrace where
  response : ChartResponse
  lookupKey : Option String
  resolverInvoked : Bool
  tier2Invoked : Bool
  cacheOps : List CacheOp
deriving DecidableEq, Repr

/-- The lower-cased trimmed cache key (`genreKey` in the source):
`rawGenre.toLowerCase().trim()` applied to the already trimmed parameter. -/
def genreKeyOf (p : String) : String := jsTrimStr (jsLowerStr (jsTrimStr p))

/-- The cache-hit decision of the handler: the stored list when the row
exists, has non-null `data`, and is younger than 24 hours.  The freshness
test `(Date.now() - cacheTime) / (1000*60*60) < 24` is modelled as
`now - cacheTime r < 86400000`, which is equivalent since division by the
positive constant `3600000` is monotone. -/
def cacheHit (cached : Option CacheRecord) (now : Int) : Option (List AlbumEntry) :=
  match cached with
  | some r =>
    match r.data with
    | some d => if now - cacheTime r < 86400000 then some d else none
    | none => none
  | none => none

/-- The handler body of `GET /api/chart/:genre`, with the cache row for the
lookup key, the clock, and the two scrape outcomes as parameters. -/
def chartHandler (p : String) (cached : Option CacheRecord) (now : Int)
    (tier1 : Except Unit Tier1Result) (tier2 : Tier2Result) : ChartTrace :=
  let rawGenre := jsTrimStr p
  if rawGenre.isEmpty then ⟨.badRequest, none, false, false, []⟩
  else
    let genreKey := jsTrimStr (jsLowerStr rawGenre)
    match cacheHit cached now with
    | some d => ⟨.ok genreKey d true, some genreKey, false, false, []⟩
    | none =>
      let res := getChartData tier1 tier2
      if res.1.isEmpty then
        ⟨.chartMissing genreKey, some genreKey, true, res.2, []⟩
      else
        let op := if cached.isSome then CacheOp.update genreKey res.1
                  else CacheOp.insert genreKey res.1
        ⟨.ok genreKey res.1 false, some genreKey, true, res.2, [op]⟩

/-! ### Cross-catalog track selector

The per-album selection logic of `POST /api/generate-playlist` together with
`getTopTrackUrisByPopularity`.  Spotify string values that JS tests for
truthiness are modelled as `Option String` where `some ""` is still falsy
(`truthyS` collapses both falsy shapes to `none`). -/

/-- Collapse JS-falsy string values (`null`/`undefined`/`""`) to `none`.
Also models `x || null` on a string attribute. -/
def truthyS : Option String → Option String
  | some s => if s.isEmpty then none else some s
  | none => none

/-- Keep the truthy values of a mapped string field (`.filter(Boolean)`). -/
def truthyFilter (l : List (Option String)) : List String := l.filterMap truthyS

/-- A simplified album track item from `GET /v1/albums/{id}/tracks`. -/
structure Track where
  id : Option String
  uri : Option String
  name : String
deriving DecidableEq, Repr

/-- A full track object from `spotifyApi.getTracks`: only the fields the
selector reads.  A `null` entry in the response behaves exactly like an
entry with a falsy `uri` under the filter `(t) => t && t.uri`, so it is
represented by `uri = none`. -/
structure DetTrack where
  uri : Option String
  popularity : Option Int
deriving DecidableEq, Repr

/-- The truthy uris of an album track list, in catalog order. -/
def itemUris (items : List Track) : List String :=
  truthyFilter (items.map Track.uri)

/-- The padding loop shared by `getTopTrackUrisByPopularity` and the
playlist route:
```
const used = new Set(acc);
for (const t of items) {
  if (acc.length >= n) break;
  if (t.uri && !used.has(t.uri)) { acc.push(t.uri); used.add(t.uri); }
}
```
-/
def padFromItems (items : List Track) (acc : List String) (n : Nat) : List String :=
  match items with
  | [] => acc
  | t :: rest =>
    if n ≤ acc.length then acc
    else
      match truthyS t.uri with
      | some u => if u ∈ acc then padFromItems rest acc n
                  else padFromItems rest (acc ++ [u]) n
      | none => padFromItems rest acc n

/--
```
async function getTopTrackUrisByPopularity(spotifyApi, albumTrackItems, n = 3) {
  const take = Math.min(n, albumTrackItems.length);
  if (take === 0) return [];
  const ids = albumTrackItems.slice(0, 50).map((t) => t.id).filter(Boolean);
  if (ids.length === 0) return albumTrackItems.slice(0, take).map((t) => t.uri).filter(Boolean);
  try {
    const res = await spotifyApi.getTracks(ids);
    const tracks = res?.body?.tracks || [];
    const withPopularity = tracks.filter((t) => t && t.uri)
        .map((t) => ({ uri: t.uri, popularity: t.popularity ?? 0 }));
    withPopularity.sort((a, b) => b.popularity - a.popularity);
    const uris = withPopularity.slice(0, take).map((t) => t.uri);
    if (uris.length >= take) return uris;
    ...pad from albumTrackItems...
    return uris;
  } catch (e) {
    return albumTrackItems.slice(0, take).map((t) => t.uri).filter(Boolean);
  }
}
```
The network call `getTracks` is a parameter: `Except.error` is the catch
path, `Except.ok dets` the response track array. -/
def getTopTrackUrisByPopularity (getTracksRes : Except Unit (List DetTrack))
    (items : List Track) (n : Nat) : List String :=
  let tk := min n items.length
  if tk = 0 then []
  else
    let ids := truthyFilter ((items.take 50).map Track.id)
    if ids.isEmpty then truthyFilter ((items.take tk).map Track.uri)
    else
      match getTracksRes with
      | .error _ => truthyFilter ((items.take tk).map Track.uri)
      | .ok tracks =>
        let withPopularity := tracks.filterMap (fun t =>
          match truthyS t.uri with
          | some u => some (u, t.popularity.getD 0)
          | none => none)
        let sorted := sortDescBy (fun x => x.2) withPopularity
        let uris := (sorted.take tk).map Prod.fst
        if tk ≤ uris.length then uris else padFromItems items uris tk

/-- A JS `Map` built from an association list: a repeated key keeps its
first position but takes the latest value. -/
def mapInsert (m : List (String × Option String)) (k : String) (v : Option String) :
    List (String × Option String) :=
  if m.any (fun e => e.1 == k) then m.map (fun e => if e.1 == k then (k, v) else e)
  else m ++ [(k, v)]

def buildMap (pairs : List (String × Option String)) : List (String × Option String) :=
  pairs.foldl (fun m p => mapInsert m p.1 p.2) []

/-- The scan loop of `findMatch`:
```
for (const [spotifyNorm, u] of spotifyNormToUri) {
  if (spotifyNorm.includes(n) || n.includes(spotifyNorm)) return u;
  if (n.length >= 4 && spotifyNorm.startsWith(n)) return u;
}
return null;
```
Note it returns the stored value `u` unchecked (possibly falsy). -/
def findMatchScan (n : String) : List (String × Option String) → Option String
  | [] => none
  | (k, u) :: rest =>
    if hasSubStr k n || hasSubStr n k then u
    else if 4 ≤ n.length && strStarts k n then u
    else findMatchScan n rest

/--
```
function findMatch(aotyName, spotifyNormToUri) {
  const n = norm(aotyName);
  const uri = spotifyNormToUri.get(n);
  if (uri) return uri;
  ...scan loop...
}
```
-/
def findMatch (aotyName : String) (m : List (String × Option String)) : Option String :=
  let n := normName aotyName
  match truthyS ((m.find? (fun e => e.1 == n)).bind Prod.snd) with
  | some u => some u
  | none => findMatchScan n m

/-- The rating-match loop:
```
for (let i = 0; i < Math.min(TRACKS_PER_ALBUM, aotyOrder.length); i++) {
  const uri = findMatch(aotyOrder[i], byNorm);
  if (uri && !urisToAdd.includes(uri)) urisToAdd.push(uri);
}
```
-/
def ratingLoop (m : List (String × Option String)) :
    List String → List String → List String
  | [], acc => acc
  | name :: rest, acc =>
    match truthyS (findMatch name m) with
    | some u => if u ∈ acc then ratingLoop m rest acc
                else ratingLoop m rest (acc ++ [u])
    | none => ratingLoop m rest acc

def TRACKS_PER_ALBUM : Nat := 3

/-- The `urisToAdd` value before the final padding step: rating-matched
tracks when an AOTY track order is available, otherwise popularity order.
`aotyOrderRaw` is what `scrapeAotyAlbumTracks(item.albumUrl)` would return;
it is consulted only when `item.albumUrl` is truthy. -/
def selectBase (albumUrl : Option String) (aotyOrderRaw : List String)
    (getTracksRes : Except Unit (List DetTrack)) (items : List Track) : List String :=
  let aotyOrder := if (truthyS albumUrl).isSome then aotyOrderRaw else []
  if (truthyS albumUrl).isNone then
    getTopTrackUrisByPopularity getTracksRes items TRACKS_PER_ALBUM
  else if aotyOrder.isEmpty then
    getTopTrackUrisByPopularity getTracksRes items TRACKS_PER_ALBUM
  else
    let byNorm := buildMap ((items.map (fun t => (normName t.name, t.uri))).filter
      (fun e => !e.1.isEmpty))
    ratingLoop byNorm (aotyOrder.take (min TRACKS_PER_ALBUM aotyOrder.length)) []

/-- The per-album `urisToAdd` computation of `POST /api/generate-playlist`:
the rating/popularity stage (`selectBase`), then padding from album order up
to `TRACKS_PER_ALBUM`. -/
def selectAlbumTracks (albumUrl : Option String) (aotyOrderRaw : List String)
    (getTracksRes : Except Unit (List DetTrack)) (items : List Track) : List String :=
  let base := selectBase albumUrl aotyOrderRaw getTracksRes items
  if base.length < TRACKS_PER_ALBUM then padFromItems items base TRACKS_PER_ALBUM
  else base

/-- The truthy uris of a `getTracks` response. -/
def detUris (dets : List DetTrack) : List String :=
  truthyFilter (dets.map DetTrack.uri)

/-! ### Chart-page extraction: Playwright evaluate vs ZenRows/cheerio

Both tiers read the same document.  The DOM queries each extraction performs
are modelled as oracle fields: a `.albumTitle`/`.artistTitle` element carries
its text and, for each of the two distinct `closest(...)` selector lists used
by the tiers (`'li, tr, [class*="album"], [class*="row"], div'` for
Playwright, `'li, tr, [class*="row"], div'` for cheerio), the results of the
container sub-queries.  `Anchor` is an `<a>` element (its text content and
`href` attribute); `ChartDoc.anchors` lists every anchor in document order,
and both tiers select from it with `a[href*="/album/"]`. -/

structure Container where
  artistTitleText : Option String
  albumTitleText : Option String
  albumLinkHref : Option String
deriving DecidableEq, Repr

structure MarkerEl where
  text : String
  closestPW : Option Container
  closestZR : Option Container
deriving DecidableEq, Repr

structure Anchor where
  text : String
  href : Option String
deriving DecidableEq, Repr

structure ChartDoc where
  albumTitles : List MarkerEl
  artistTitles : List MarkerEl
  anchors : List Anchor
deriving DecidableEq, Repr

def TOP_N : Nat := 20

/-- The album anchors of the document, as selected by both tiers with the
CSS selector requiring an `href` attribute containing `/album/`. -/
def docAlbumAnchors (d : ChartDoc) : List Anchor :=
  d.anchors.filter (fun a =>
    match a.href with
    | some h => hasSubStr h "/album/"
    | none => false)

def keepEntry (e : AlbumEntry) : Bool := !e.artist.isEmpty || !e.album.isEmpty

/-- One entry of the Playwright album-major marker branch. -/
def pwEntryFromAlbum (artistEls : List MarkerEl) (i : Nat) (el : MarkerEl) : AlbumEntry :=
  let album := jsTrimStr el.text
  let contArtist := (el.closestPW.bind Container.artistTitleText).map jsTrimStr
  let listArtist := (artistEls.get? i).map (fun a => jsTrimStr a.text)
  let artist := ((truthyS contArtist).orElse (fun _ => truthyS listArtist)).getD ""
  ⟨i + 1, artist, album, truthyS (el.closestPW.bind Container.albumLinkHref)⟩

/-- One entry of the Playwright artist-major marker branch. -/
def pwEntryFromArtist (albumEls : List MarkerEl) (i : Nat) (el : MarkerEl) : AlbumEntry :=
  let artist := jsTrimStr el.text
  let contAlbum := (el.closestPW.bind Container.albumTitleText).map jsTrimStr
  let listAlbum := (albumEls.get? i).map (fun a => jsTrimStr a.text)
  let album := ((truthyS contAlbum).orElse (fun _ => truthyS listAlbum)).getD ""
  ⟨i + 1, artist, album, truthyS (el.closestPW.bind Container.albumLinkHref)⟩

/-- One entry of the Playwright anchor fallback:
```
const text = a?.textContent?.trim() || '';
const idx = text.indexOf(' - ');
const artist = idx > 0 ? text.slice(0, idx).trim() : '';
const album = idx > 0 ? text.slice(idx + 3).trim() : text;
return { rank: i + 1, artist, album, albumUrl: a?.getAttribute?.('href') || null };
```
-/
def pwFbEntry (i : Nat) (a : Anchor) : AlbumEntry :=
  let text := jsTrimStr a.text
  match firstMatchIdx " - ".data text.data with
  | some idx =>
    if 0 < idx then
      ⟨i + 1, jsTrimStr (strTake text idx), jsTrimStr (strDrop text (idx + 3)),
        truthyS a.href⟩
    else ⟨i + 1, "", text, truthyS a.href⟩
  | none => ⟨i + 1, "", text, truthyS a.href⟩

/-- The `page.evaluate` closure of `scrapeAotyWithPlaywright` (lines 180-215
of the server). -/
def extractPlaywrightChart (d : ChartDoc) : List AlbumEntry :=
  let albumEls := d.albumTitles.take TOP_N
  let artistEls := d.artistTitles.take TOP_N
  if !albumEls.isEmpty || !artistEls.isEmpty then
    if artistEls.length ≤ albumEls.length then
      (albumEls.enum.map (fun e => pwEntryFromAlbum artistEls e.1 e.2)).filter keepEntry
    else
      (artistEls.enum.map (fun e => pwEntryFromArtist albumEls e.1 e.2)).filter keepEntry
  else
    let links := ((docAlbumAnchors d).filter (fun a => hasSubStr a.text " - ")).take TOP_N
    (links.enum.map (fun e => pwFbEntry e.1 e.2)).filter keepEntry

/-- One entry of the ZenRows marker branch (`$(albumEls[i])` on a position
past the end of a cheerio selection yields an empty selection, whose
`.text()` is `''` and whose `.closest(...).find(...).attr()` is
`undefined`). -/
def zrEntry (albumEls artistEls : List MarkerEl) (i : Nat) : Option AlbumEntry :=
  let album := ((albumEls.get? i).map (fun el => jsTrimStr el.text)).getD ""
  let artist := ((artistEls.get? i).map (fun el => jsTrimStr el.text)).getD ""
  let albumUrl :=
    match albumEls.get? i with
    | some el => truthyS (el.closestZR.bind Container.albumLinkHref)
    | none => none
  if !artist.isEmpty || !album.isEmpty then some ⟨i + 1, artist, album, albumUrl⟩
  else none

/-- The ZenRows anchor fallback: `$('a[href*="/album/"]').each((i, el) => ...)`
stops at index `TOP_N`, skips anchors whose trimmed text lacks `' - '`
(these still consume an index), and pushes the split entry otherwise. -/
def zrFallbackAux : Nat → List Anchor → List AlbumEntry
  | _, [] => []
  | i, a :: rest =>
    if TOP_N ≤ i then []
    else
      let text := jsTrimStr a.text
      match firstMatchIdx " - ".data text.data with
      | some idx =>
        ⟨i + 1, jsTrimStr (strTake text idx), jsTrimStr (strDrop text (idx + 3)),
          truthyS a.href⟩ :: zrFallbackAux (i + 1) rest
      | none => zrFallbackAux (i + 1) rest

/-- The cheerio parse of `scrapeAotyWithZenRows` (lines 248-274). -/
def extractZenRowsChart (d : ChartDoc) : List AlbumEntry :=
  let albumEls := d.albumTitles.take TOP_N
  let artistEls := d.artistTitles.take TOP_N
  if !albumEls.isEmpty || !artistEls.isEmpty then
    (List.range (max albumEls.length artistEls.length)).filterMap
      (zrEntry albumEls artistEls)
  else
    zrFallbackAux 0 (docAlbumAnchors d)

/-! ## Character-class lemmas -/

theorem isJsSpace_eq_true_iff {c : Char} : isJsSpace c = true ↔
    (c.toNat = 9 ∨ c.toNat = 10 ∨ c.toNat = 11 ∨ c.toNat = 12 ∨ c.toNat = 13 ∨
     c.toNat = 32 ∨ c.toNat = 160 ∨ c.toNat = 5760 ∨
     (8192 ≤ c.toNat ∧ c.toNat ≤ 8202) ∨ c.toNat = 8232 ∨ c.toNat = 8233 ∨
     c.toNat = 8239 ∨ c.toNat = 8287 ∨ c.toNat = 12288 ∨ c.toNat = 65279) := by
  simp [isJsSpace]
  tauto

theorem isSlugChar_eq_true_iff {c : Char} : isSlugChar c = true ↔
    ((97 ≤ c.toNat ∧ c.toNat ≤ 122) ∨ (48 ≤ c.toNat ∧ c.toNat ≤ 57) ∨
     c.toNat = 45) := by
  simp [isSlugChar]
  tauto

theorem slug_toLower_id {c : Char} (h : isSlugChar c = true) : c.toLower = c := by
  rw [isSlugChar_eq_true_iff] at h
  have h' : ¬(c.toNat ≥ 65 ∧ c.toNat ≤ 90) := by omega
  simp [Char.toLower, h']

theorem slug_not_space {c : Char} (h : isSlugChar c = true) : isJsSpace c = false := by
  rw [Bool.eq_false_iff]
  intro hs
  rw [isJsSpace_eq_true_iff] at hs
  rw [isSlugChar_eq_true_iff] at h
  omega

/-! ## Trim and collapse lemmas -/

theorem map_eq_self_of {α : Type} {l : List α} {f : α → α}
    (h : ∀ c ∈ l, f c = c) : l.map f = l := by
  induction l with
  | nil => rfl
  | cons c t ih =>
    simp only [List.map_cons, h c (List.mem_cons_self c t)]
    rw [ih (fun x hx => h x (List.mem_cons_of_mem c hx))]

theorem dropWhile_eq_self_of {p : Char → Bool} {l : List Char}
    (h : ∀ c ∈ l, p c = false) : l.dropWhile p = l := by
  cases l with
  | nil => rfl
  | cons c t => simp [List.dropWhile_cons, h c (List.mem_cons_self c t)]

theorem jsTrimL_eq_self {l : List Char} (h : ∀ c ∈ l, isJsSpace c = false) :
    jsTrimL l = l := by
  unfold jsTrimL
  rw [dropWhile_eq_self_of h]
  rw [dropWhile_eq_self_of (fun c hc => h c (List.mem_reverse.mp hc))]
  exact List.reverse_reverse l

theorem collapseRunsAux_eq_self {rep : Char} {b : Bool} {l : List Char}
    (h : ∀ c ∈ l, isJsSpace c = false) : collapseRunsAux rep b l = l := by
  induction l generalizing b with
  | nil => rfl
  | cons c t ih =>
    simp only [collapseRunsAux, h c (List.mem_cons_self c t)]
    simp only [Bool.false_eq_true, if_false]
    rw [ih (fun x hx => h x (List.mem_cons_of_mem c hx))]

/-! ## C8 — slug normalization idempotent, with the two fixed points -/

theorem formatGenreSlugL_idem (l : List Char) :
    formatGenreSlugL (formatGenreSlugL l) = formatGenreSlugL l := by
  have hy : ∀ c ∈ formatGenreSlugL l, isSlugChar c = true :=
    fun c hc => List.of_mem_filter hc
  show (collapseRuns '-' (jsTrimL (jsLowerL (formatGenreSlugL l)))).filter isSlugChar
      = formatGenreSlugL l
  rw [show jsLowerL (formatGenreSlugL l) = formatGenreSlugL l from
    map_eq_self_of (fun c hc => slug_toLower_id (hy c hc))]
  rw [jsTrimL_eq_self (fun c hc => slug_not_space (hy c hc))]
  rw [show collapseRuns '-' (formatGenreSlugL l) = formatGenreSlugL l from
    collapseRunsAux_eq_self (fun c hc => slug_not_space (hy c hc))]
  exact List.filter_eq_self.mpr hy

/-- C8: `formatGenreSlug` is idempotent, and on the concrete inputs of the
design document it yields `formatGenreSlug "Synth Pop" = "synth-pop"` and
`formatGenreSlug "R&B!!" = "rb"`. -/
theorem c8_slug_idempotent :
    (∀ s : String, formatGenreSlug (formatGenreSlug s) = formatGenreSlug s) ∧
    formatGenreSlug "Synth Pop" = "synth-pop" ∧ formatGenreSlug "R&B!!" = "rb" := by
  refine ⟨fun s => ?_, by decide, by decide⟩
  show String.mk (formatGenreSlugL (formatGenreSlugL s.data))
      = String.mk (formatGenreSlugL s.data)
  exact congrArg String.mk (formatGenreSlugL_idem s.data)

/-! ## Sorting lemmas -/

theorem insDesc_perm {α : Type} (key : α → Int) (x : α) (l : List α) :
    (insDesc key x l).Perm (x :: l) := by
  induction l with
  | nil => exact List.Perm.refl _
  | cons y ys ih =>
    simp only [insDesc]
    split
    · exact List.Perm.refl _
    · exact (List.Perm.cons y ih).trans (List.Perm.swap x y ys)

theorem sortDescBy_perm {α : Type} (key : α → Int) (l : List α) :
    (sortDescBy key l).Perm l := by
  induction l with
  | nil => exact List.Perm.refl _
  | cons x xs ih =>
    exact ((insDesc_perm key x (sortDescBy key xs)).trans (List.Perm.cons x ih))

theorem sortDescBy_length {α : Type} (key : α → Int) (l : List α) :
    (sortDescBy key l).length = l.length :=
  (sortDescBy_perm key l).length_eq

/-! ## C7 — the concrete track table of the design document -/

/-- C7: on the table `[["1","Intro 1:02","80"],["2","Void 3:45","95"],
["3","—","notanumber"]]` the album-page extraction returns exactly
`["Void","Intro"]`: duration suffixes stripped, descending-rating order, the
unparsable third row discarded. -/
theorem c7_track_table_concrete :
    scrapeAotyAlbumTracksEval
      [[["1", "Intro 1:02", "80"], ["2", "Void 3:45", "95"], ["3", "—", "notanumber"]]]
      = ["Void", "Intro"] := by decide

/-! ## C6 — candidate-table criterion -/

/-- C6 counterexample: the code treats a table as a candidate (and returns
its tracks) even though the first cell of its first row is `"x"`, not purely
numeric — the design document's first-cell condition is checked nowhere. -/
theorem c6_counterexample :
    scrapeAotyAlbumTracksEval [[["x", "A 1:02", "80"], ["y", "B 3:45", "95"]]]
      = ["B", "A"] ∧
    isPurelyNumeric "x" = false :=
  ⟨by decide, by decide⟩

/-- C6 as amended: a table is a candidate iff it has at least 2 rows with at
least 3 cells (no condition on the first cell), and the extraction returns
the empty sequence iff no table additionally has at least 2 usable rows
(third cell parses as a rating in [0,100], name non-empty after
duration-stripping). -/
theorem c6_candidate_amended (tables : List (List (List String))) :
    scrapeAotyAlbumTracksEval tables = [] ↔
      ∀ t ∈ tables,
        (t.filter (fun row => 3 ≤ row.length)).length < 2 ∨ (usableRows t).length < 2 := by
  induction tables with
  | nil => simp [scrapeAotyAlbumTracksEval]
  | cons t rest ih =>
    simp only [scrapeAotyAlbumTracksEval]
    by_cases h1 : (t.filter (fun row => 3 ≤ row.length)).length < 2
    · simp only [h1, if_true, ih, List.mem_cons]
      constructor
      · intro h u hu
        rcases hu with hu | hu
        · subst hu; exact Or.inl h1
        · exact h u hu
      · intro h u hu
        exact h u (Or.inr hu)
    · simp only [h1, if_false]
      by_cases h2 : 2 ≤ (usableRows t).length
      · simp only [h2, if_true]
        constructor
        · intro h
          exfalso
          have hl := congrArg List.length h
          rw [List.length_map, sortDescBy_length] at hl
          simp only [List.length_nil] at hl
          omega
        · intro h
          exfalso
          rcases h t (List.mem_cons_self t rest) with h' | h'
          · exact h1 h'
          · omega
      · simp only [h2, if_false, ih, List.mem_cons]
        constructor
        · intro h u hu
          rcases hu with hu | hu
          · subst hu; exact Or.inr (by omega)
          · exact h u hu
        · intro h u hu
          exact h u (Or.inr hu)

/-! ## C3 — tiered chart resolver policy -/

/-- C3: `getChartData` tries Playwright first; a thrown tier-1 error is not
propagated and ZenRows is invoked; a non-empty tier-1 list is returned with
ZenRows never invoked; tier-1 empty and tier-2 non-empty yields tier 2's
list; both empty yields the empty list (the function is total, so nothing is
thrown).  The hypotheses record the invariant established at every return
site of both scrapers: `success = (albums.length > 0)`. -/
theorem c3_tiered_resolver (tier1 : Except Unit Tier1Result) (tier2 : Tier2Result)
    (h1 : ∀ r, tier1 = .ok r → r.success = !r.albums.isEmpty)
    (h2 : tier2.success = !tier2.albums.isEmpty) :
    (∀ e, tier1 = .error e → (getChartData tier1 tier2).2 = true) ∧
    (∀ r, tier1 = .ok r → r.albums ≠ [] →
      getChartData tier1 tier2 = (r.albums, false)) ∧
    (∀ r, tier1 = .ok r → r.albums = [] → tier2.albums ≠ [] →
      getChartData tier1 tier2 = (tier2.albums, true)) ∧
    (∀ r, tier1 = .ok r → r.albums = [] → tier2.albums = [] →
      getChartData tier1 tier2 = ([], true)) := by
  refine ⟨?_, ?_, ?_, ?_⟩
  · intro e he
    subst he
    simp [getChartData, runZenRowsTier]
    split <;> rfl
  · intro r hr hne
    subst hr
    have hs := h1 r rfl
    simp only [getChartData]
    rw [hs]
    simp [List.isEmpty_iff, hne]
  · intro r hr hemp hne
    subst hr
    have hs := h1 r rfl
    simp only [getChartData]
    rw [hs, hemp]
    simp only [List.isEmpty_nil, Bool.not_true, Bool.false_and, Bool.false_eq_true,
      if_false, runZenRowsTier]
    rw [h2]
    simp [List.isEmpty_iff, hne]
  · intro r hr hemp hemp2
    subst hr
    have hs := h1 r rfl
    simp only [getChartData]
    rw [hs, hemp]
    simp only [List.isEmpty_nil, Bool.not_true, Bool.false_and, Bool.false_eq_true,
      if_false, runZenRowsTier]
    rw [h2, hemp2]
    simp

/-- Witness for C3 at a concrete input: tier 1 succeeds with one album and
tier 2 is never invoked. -/
theorem c3_tiered_resolver_witness :
    getChartData (.ok ⟨[⟨1, "a", "b", none⟩], true, false⟩) ⟨[], false⟩
      = ([⟨1, "a", "b", none⟩], false) := by
  have h := c3_tiered_resolver (.ok ⟨[⟨1, "a", "b", none⟩], true, false⟩) ⟨[], false⟩
    (by intro r hr; cases hr; rfl) (by rfl)
  exact h.2.1 _ rfl (by simp)

/-! ## Handler unfolding lemmas -/

theorem chartHandler_hit {p : String} {cached : Option CacheRecord} {now : Int}
    {d : List AlbumEntry} (tier1 : Except Unit Tier1Result) (tier2 : Tier2Result)
    (hp : (jsTrimStr p).isEmpty = false) (hh : cacheHit cached now = some d) :
    chartHandler p cached now tier1 tier2 =
      ⟨.ok (genreKeyOf p) d true, some (genreKeyOf p), false, false, []⟩ := by
  simp only [chartHandler, hp, Bool.false_eq_true, if_false, hh, genreKeyOf]

theorem chartHandler_miss_empty {p : String} {cached : Option CacheRecord} {now : Int}
    {tier1 : Except Unit Tier1Result} {tier2 : Tier2Result}
    (hp : (jsTrimStr p).isEmpty = false) (hh : cacheHit cached now = none)
    (he : (getChartData tier1 tier2).1 = []) :
    chartHandler p cached now tier1 tier2 =
      ⟨.chartMissing (genreKeyOf p), some (genreKeyOf p), true,
        (getChartData tier1 tier2).2, []⟩ := by
  simp only [chartHandler, hp, Bool.false_eq_true, if_false, hh, he, genreKeyOf,
    List.isEmpty_nil, if_true]

theorem chartHandler_miss_found {p : String} {cached : Option CacheRecord} {now : Int}
    {tier1 : Except Unit Tier1Result} {tier2 : Tier2Result}
    (hp : (jsTrimStr p).isEmpty = false) (hh : cacheHit cached now = none)
    (he : (getChartData tier1 tier2).1 ≠ []) :
    chartHandler p cached now tier1 tier2 =
      ⟨.ok (genreKeyOf p) (getChartData tier1 tier2).1 false, some (genreKeyOf p), true,
        (getChartData tier1 tier2).2,
        [if cached.isSome then CacheOp.update (genreKeyOf p) (getChartData tier1 tier2).1
         else CacheOp.insert (genreKeyOf p) (getChartData tier1 tier2).1]⟩ := by
  have he' : (getChartData tier1 tier2).1.isEmpty = false := by
    simp [List.isEmpty_iff, he]
  simp only [chartHandler, hp, Bool.false_eq_true, if_false, hh, he', genreKeyOf]

/-! ## C4 — cache freshness gate -/

/-- C4: with a cache row whose `data` is present, a request whose clock lies
strictly within 24 hours (86 400 000 ms) of the row's timestamp returns the
stored list tagged as a cache hit and never invokes the resolver; an absent
row, or one at least 24 hours old, makes the handler invoke the resolver. -/
theorem c4_cache_gate (p : String) (cached : Option CacheRecord) (now : Int)
    (tier1 : Except Unit Tier1Result) (tier2 : Tier2Result)
    (hp : ¬(jsTrimStr p).isEmpty) :
    (∀ r d, cached = some r → r.data = some d → now - cacheTime r < 86400000 →
      (chartHandler p cached now tier1 tier2).response = .ok (genreKeyOf p) d true ∧
      (chartHandler p cached now tier1 tier2).resolverInvoked = false) ∧
    ((cached = none ∨ ∃ r, cached = some r ∧ 86400000 ≤ now - cacheTime r) →
      (chartHandler p cached now tier1 tier2).resolverInvoked = true) := by
  have hp' : (jsTrimStr p).isEmpty = false := by
    cases h : (jsTrimStr p).isEmpty
    · rfl
    · exact absurd h hp
  constructor
  · intro r d hc hd hfresh
    subst hc
    have hh : cacheHit (some r) now = some d := by
      simp [cacheHit, hd, hfresh]
    rw [chartHandler_hit tier1 tier2 hp' hh]
    exact ⟨rfl, rfl⟩
  · intro h
    have hh : cacheHit cached now = none := by
      rcases h with hc | ⟨r, hc, hstale⟩
      · subst hc; rfl
      · subst hc
        have hnf : ¬(now - cacheTime r < 86400000) := by omega
        cases hd : r.data <;> simp [cacheHit, hd, hnf]
    by_cases he : (getChartData tier1 tier2).1 = []
    · rw [chartHandler_miss_empty hp' hh he]
    · rw [chartHandler_miss_found hp' hh he]

/-- Witness for C4 at a concrete input: a fresh row is served as a hit, and
a stale row triggers the resolver. -/
theorem c4_cache_gate_witness :
    ((chartHandler "rock" (some ⟨some [⟨1, "a", "b", none⟩], some 0, 0⟩) 100
        (.error ()) ⟨[], false⟩).response
      = .ok "rock" [⟨1, "a", "b", none⟩] true ∧
     (chartHandler "rock" (some ⟨some [⟨1, "a", "b", none⟩], some 0, 0⟩) 100
        (.error ()) ⟨[], false⟩).resolverInvoked = false) ∧
    (chartHandler "rock" (some ⟨some [⟨1, "a", "b", none⟩], some 0, 0⟩) 86400000
        (.error ()) ⟨[], false⟩).resolverInvoked = true := by
  constructor
  · have h := c4_cache_gate "rock" (some ⟨some [⟨1, "a", "b", none⟩], some 0, 0⟩) 100
      (.error ()) ⟨[], false⟩ (by decide)
    exact h.1 _ _ rfl rfl (by decide)
  · have h := c4_cache_gate "rock" (some ⟨some [⟨1, "a", "b", none⟩], some 0, 0⟩) 86400000
      (.error ()) ⟨[], false⟩ (by decide)
    exact h.2 (Or.inr ⟨_, rfl, by decide⟩)

/-! ## C5 — stale rows are left untouched on refresh failure -/

/-- C5: when the cache row is stale (at least 24 hours old) and the resolver
comes back empty, no cache write of any kind happens and the request is
answered with the not-found failure, not with the expired data. -/
theorem c5_stale_untouched (p : String) (r : CacheRecord) (d : List AlbumEntry)
    (now : Int) (tier1 : Except Unit Tier1Result) (tier2 : Tier2Result)
    (hp : ¬(jsTrimStr p).isEmpty) (hd : r.data = some d)
    (hstale : 86400000 ≤ now - cacheTime r)
    (hempty : (getChartData tier1 tier2).1 = []) :
    (chartHandler p (some r) now tier1 tier2).cacheOps = [] ∧
    (chartHandler p (some r) now tier1 tier2).response = .chartMissing (genreKeyOf p) := by
  have hp' : (jsTrimStr p).isEmpty = false := by
    cases h : (jsTrimStr p).isEmpty
    · rfl
    · exact absurd h hp
  have hnf : ¬(now - cacheTime r < 86400000) := by omega
  have hh : cacheHit (some r) now = none := by simp [cacheHit, hd, hnf]
  rw [chartHandler_miss_empty hp' hh hempty]
  exact ⟨rfl, rfl⟩

/-- Witness for C5 at a concrete input. -/
theorem c5_stale_untouched_witness :
    (chartHandler "rock" (some ⟨some [⟨1, "a", "b", none⟩], some 0, 0⟩) 86400000
        (.error ()) ⟨[], false⟩).cacheOps = [] ∧
    (chartHandler "rock" (some ⟨some [⟨1, "a", "b", none⟩], some 0, 0⟩) 86400000
        (.error ()) ⟨[], false⟩).response = .chartMissing "rock" :=
  c5_stale_untouched "rock" ⟨some [⟨1, "a", "b", none⟩], some 0, 0⟩
    [⟨1, "a", "b", none⟩] 86400000 (.error ()) ⟨[], false⟩
    (by decide) rfl (by decide) (by decide)

/-! ## C10 — a Playwright 404 still escalates to ZenRows -/

/-- C10: when the Playwright tier observes a 404 (returning
`{ albums: [], success: false, notFound: true }`, line 171 of the server)
and the cache has no row, the resolver still invokes the ZenRows tier, and
the request is answered not-found exactly when that tier also comes back
empty — otherwise ZenRows' list is served. -/
theorem c10_notfound_escalates (p : String) (now : Int) (tier2 : Tier2Result)
    (hp : ¬(jsTrimStr p).isEmpty)
    (h2 : tier2.success = !tier2.albums.isEmpty) :
    (chartHandler p none now (.ok ⟨[], false, true⟩) tier2).tier2Invoked = true ∧
    (tier2.albums = [] →
      (chartHandler p none now (.ok ⟨[], false, true⟩) tier2).response
        = .chartMissing (genreKeyOf p)) ∧
    (tier2.albums ≠ [] →
      (chartHandler p none now (.ok ⟨[], false, true⟩) tier2).response
        = .ok (genreKeyOf p) tier2.albums false) := by
  have hp' : (jsTrimStr p).isEmpty = false := by
    cases h : (jsTrimStr p).isEmpty
    · rfl
    · exact absurd h hp
  have hh : cacheHit none now = none := rfl
  have hgc : getChartData (.ok ⟨[], false, true⟩) tier2 = runZenRowsTier tier2 := by
    simp [getChartData]
  have hz2 : (runZenRowsTier tier2).2 = true := by
    simp only [runZenRowsTier]
    split <;> rfl
  refine ⟨?_, ?_, ?_⟩
  · by_cases he : (getChartData (.ok ⟨[], false, true⟩) tier2).1 = []
    · rw [chartHandler_miss_empty hp' hh he]
      simp only [hgc, hz2]
    · rw [chartHandler_miss_found hp' hh he]
      simp only [hgc, hz2]
  · intro hemp
    have he : (getChartData (.ok ⟨[], false, true⟩) tier2).1 = [] := by
      rw [hgc]
      simp only [runZenRowsTier]
      rw [h2, hemp]
      simp
    rw [chartHandler_miss_empty hp' hh he]
  · intro hne
    have hgv : getChartData (.ok ⟨[], false, true⟩) tier2 = (tier2.albums, true) := by
      rw [hgc]
      simp only [runZenRowsTier]
      rw [h2]
      simp [List.isEmpty_iff, hne]
    have he : (getChartData (.ok ⟨[], false, true⟩) tier2).1 ≠ [] := by
      rw [hgv]; exact hne
    rw [chartHandler_miss_found hp' hh he, hgv]

/-- Witness for C10 at a concrete input: tier 1 reports 404, tier 2 finds
one album, and the request succeeds from tier 2. -/
theorem c10_notfound_escalates_witness :
    (chartHandler "rock" none 0 (.ok ⟨[], false, true⟩)
        ⟨[⟨1, "a", "b", none⟩], true⟩).tier2Invoked = true ∧
    (chartHandler "rock" none 0 (.ok ⟨[], false, true⟩)
        ⟨[⟨1, "a", "b", none⟩], true⟩).response
      = .ok "rock" [⟨1, "a", "b", none⟩] false := by
  have h := c10_notfound_escalates "rock" 0 ⟨[⟨1, "a", "b", none⟩], true⟩
    (by decide) (by rfl)
  exact ⟨h.1, h.2.2 (by simp)⟩

/-! ## C1 — the cache key is not the slug -/

/-- C1 counterexample: for the request genre `"Synth Pop"` the key used for
lookup and upsert is `"synth pop"` (lower-cased, trimmed), while the Genre
Slug Normalizer produces `"synth-pop"` — the two differ, so the cache is not
keyed by `formatGenreSlug`'s output. -/
theorem c1_counterexample :
    (chartHandler "Synth Pop" none 0 (.ok ⟨[⟨1, "a", "b", none⟩], true, false⟩)
        ⟨[], false⟩).lookupKey = some "synth pop" ∧
    (chartHandler "Synth Pop" none 0 (.ok ⟨[⟨1, "a", "b", none⟩], true, false⟩)
        ⟨[], false⟩).cacheOps
      = [CacheOp.insert "synth pop" [⟨1, "a", "b", none⟩]] ∧
    formatGenreSlug "Synth Pop" = "synth-pop" ∧
    ("synth pop" : String) ≠ "synth-pop" :=
  ⟨by decide, by decide, by decide, by decide⟩

/-- C1 as amended: the lookup key and every upsert key agree, and both equal
the lower-cased trimmed raw genre (`rawGenre.toLowerCase().trim()`), not the
hyphenated slug — `formatGenreSlug` is used only for the scrape URL. -/
theorem c1_cache_key_amended (p : String) (cached : Option CacheRecord) (now : Int)
    (tier1 : Except Unit Tier1Result) (tier2 : Tier2Result) :
    (chartHandler p cached now tier1 tier2).lookupKey
      = (if (jsTrimStr p).isEmpty then none else some (genreKeyOf p)) ∧
    (∀ op ∈ (chartHandler p cached now tier1 tier2).cacheOps,
      op.key = genreKeyOf p) := by
  cases hp : (jsTrimStr p).isEmpty with
  | true =>
    have : chartHandler p cached now tier1 tier2 = ⟨.badRequest, none, false, false, []⟩ := by
      simp only [chartHandler, hp, if_true]
    rw [this]
    exact ⟨rfl, by intro op hop; simp at hop⟩
  | false =>
    simp only [Bool.false_eq_true, if_false]
    cases hh : cacheHit cached now with
    | some d =>
      rw [chartHandler_hit tier1 tier2 hp hh]
      exact ⟨rfl, by intro op hop; simp at hop⟩
    | none =>
      by_cases he : (getChartData tier1 tier2).1 = []
      · rw [chartHandler_miss_empty hp hh he]
        exact ⟨rfl, by intro op hop; simp at hop⟩
      · rw [chartHandler_miss_found hp hh he]
        refine ⟨rfl, ?_⟩
        intro op hop
        simp only [List.mem_singleton] at hop
        subst hop
        split <;> rfl

/-! ## C2 — selector lemmas -/

theorem truthyS_eq_some {o : Option String} {u : String} (h : truthyS o = some u) :
    o = some u ∧ u.isEmpty = false := by
  cases o with
  | none => exact absurd h (by simp [truthyS])
  | some s =>
    simp only [truthyS] at h
    by_cases hs : s.isEmpty
    · rw [if_pos hs] at h; exact absurd h (by simp)
    · rw [if_neg hs] at h
      cases h
      exact ⟨rfl, by simpa using hs⟩

theorem itemUris_cons (t : Track) (rest : List Track) :
    itemUris (t :: rest) =
      match truthyS t.uri with
      | some u => u :: itemUris rest
      | none => itemUris rest := by
  simp only [itemUris, truthyFilter, List.map_cons, List.filterMap_cons]
  cases truthyS t.uri <;> rfl

theorem mem_itemUris {items : List Track} {u : String} {t : Track}
    (ht : t ∈ items) (hu : truthyS t.uri = some u) : u ∈ itemUris items := by
  simp only [itemUris, truthyFilter]
  exact List.mem_filterMap.mpr ⟨t.uri, List.mem_map_of_mem Track.uri ht, hu⟩

theorem itemUris_length {items : List Track}
    (hall : ∀ t ∈ items, (truthyS t.uri).isSome) :
    (itemUris items).length = items.length := by
  induction items with
  | nil => rfl
  | cons t rest ih =>
    rw [itemUris_cons]
    cases hu : truthyS t.uri with
    | none =>
      have := hall t (List.mem_cons_self t rest)
      rw [hu] at this
      exact absurd this (by simp)
    | some u =>
      simp only [List.length_cons]
      rw [ih (fun x hx => hall x (List.mem_cons_of_mem t hx))]

/-! ### Padding lemmas -/

theorem padFromItems_stop {t : Track} {rest : List Track} {acc : List String} {n : Nat}
    (h : n ≤ acc.length) : padFromItems (t :: rest) acc n = acc := by
  simp only [padFromItems, if_pos h]

theorem padFromItems_cons_none {t : Track} {rest : List Track} {acc : List String}
    {n : Nat} (h : ¬n ≤ acc.length) (hu : truthyS t.uri = none) :
    padFromItems (t :: rest) acc n = padFromItems rest acc n := by
  simp only [padFromItems, if_neg h, hu]

theorem padFromItems_cons_mem {t : Track} {rest : List Track} {acc : List String}
    {n : Nat} {u : String} (h : ¬n ≤ acc.length) (hu : truthyS t.uri = some u)
    (hm : u ∈ acc) : padFromItems (t :: rest) acc n = padFromItems rest acc n := by
  simp only [padFromItems, if_neg h, hu, if_pos hm]

theorem padFromItems_cons_new {t : Track} {rest : List Track} {acc : List String}
    {n : Nat} {u : String} (h : ¬n ≤ acc.length) (hu : truthyS t.uri = some u)
    (hm : u ∉ acc) : padFromItems (t :: rest) acc n = padFromItems rest (acc ++ [u]) n := by
  simp only [padFromItems, if_neg h, hu, if_neg hm]

theorem nodup_snoc {l : List String} {u : String} (h : l.Nodup) (hu : u ∉ l) :
    (l ++ [u]).Nodup := by
  simp [List.nodup_append, h, hu]

theorem padFromItems_nodup {items : List Track} :
    ∀ {acc : List String} {n : Nat}, acc.Nodup → (padFromItems items acc n).Nodup := by
  induction items with
  | nil => intro acc n h; exact h
  | cons t rest ih =>
    intro acc n h
    by_cases hlen : n ≤ acc.length
    · rw [padFromItems_stop hlen]; exact h
    · cases hu : truthyS t.uri with
      | none => rw [padFromItems_cons_none hlen hu]; exact ih h
      | some u =>
        by_cases hm : u ∈ acc
        · rw [padFromItems_cons_mem hlen hu hm]; exact ih h
        · rw [padFromItems_cons_new hlen hu hm]
          exact ih (nodup_snoc h hm)

theorem padFromItems_sub {items : List Track} :
    ∀ {acc : List String} {n : Nat} {x : String}, x ∈ padFromItems items acc n →
      x ∈ acc ∨ x ∈ itemUris items := by
  induction items with
  | nil => intro acc n x hx; exact Or.inl hx
  | cons t rest ih =>
    intro acc n x hx
    by_cases hlen : n ≤ acc.length
    · rw [padFromItems_stop hlen] at hx; exact Or.inl hx
    · cases hu : truthyS t.uri with
      | none =>
        rw [padFromItems_cons_none hlen hu] at hx
        rcases ih hx with h | h
        · exact Or.inl h
        · right; rw [itemUris_cons, hu]; exact h
      | some u =>
        by_cases hm : u ∈ acc
        · rw [padFromItems_cons_mem hlen hu hm] at hx
          rcases ih hx with h | h
          · exact Or.inl h
          · right; rw [itemUris_cons, hu]; exact List.mem_cons_of_mem u h
        · rw [padFromItems_cons_new hlen hu hm] at hx
          rcases ih hx with h | h
          · rcases List.mem_append.mp h with h | h
            · exact Or.inl h
            · right
              rw [itemUris_cons, hu]
              simp only [List.mem_singleton] at h
              subst h
              exact List.mem_cons_self x (itemUris rest)
          · right; rw [itemUris_cons, hu]; exact List.mem_cons_of_mem u h

theorem padFromItems_length_le {items : List Track} :
    ∀ {acc : List String} {n : Nat}, (padFromItems items acc n).length ≤ max acc.length n := by
  induction items with
  | nil => intro acc n; exact le_max_left _ _
  | cons t rest ih =>
    intro acc n
    by_cases hlen : n ≤ acc.length
    · rw [padFromItems_stop hlen]; exact le_max_left _ _
    · cases hu : truthyS t.uri with
      | none => rw [padFromItems_cons_none hlen hu]; exact ih
      | some u =>
        by_cases hm : u ∈ acc
        · rw [padFromItems_cons_mem hlen hu hm]; exact ih
        · rw [padFromItems_cons_new hlen hu hm]
          refine le_trans ih ?_
          have h1 : (acc ++ [u]).length ≤ n := by
            simp only [List.length_append, List.length_singleton]
            omega
          omega

theorem card_le_card_append {acc l : List String} (h : acc.Nodup) :
    acc.length ≤ ((acc ++ l).toFinset.card) := by
  rw [← List.toFinset_card_of_nodup h]
  refine Finset.card_le_card ?_
  rw [List.toFinset_append]
  exact Finset.subset_union_left

theorem padFromItems_card {items : List Track} :
    ∀ {acc : List String} {n : Nat}, acc.Nodup → acc.length ≤ n →
      (padFromItems items acc n).length = min n ((acc ++ itemUris items).toFinset.card) := by
  induction items with
  | nil =>
    intro acc n hnd hle
    show acc.length = min n ((acc ++ itemUris []).toFinset.card)
    rw [show itemUris [] = [] from rfl, List.append_nil,
      List.toFinset_card_of_nodup hnd]
    omega
  | cons t rest ih =>
    intro acc n hnd hle
    by_cases hlen : n ≤ acc.length
    · rw [padFromItems_stop hlen]
      have hcard := card_le_card_append (l := itemUris (t :: rest)) hnd
      omega
    · cases hu : truthyS t.uri with
      | none =>
        rw [padFromItems_cons_none hlen hu, ih hnd hle, itemUris_cons, hu]
      | some u =>
        by_cases hm : u ∈ acc
        · rw [padFromItems_cons_mem hlen hu hm, ih hnd hle, itemUris_cons, hu]
          have : (acc ++ u :: itemUris rest).toFinset = (acc ++ itemUris rest).toFinset := by
            simp only [List.toFinset_append, List.toFinset_cons]
            rw [Finset.union_insert]
            refine Finset.insert_eq_self.mpr ?_
            exact Finset.mem_union_left _ (List.mem_toFinset.mpr hm)
          rw [this]
        · rw [padFromItems_cons_new hlen hu hm]
          have hle' : (acc ++ [u]).length ≤ n := by
            simp only [List.length_append, List.length_singleton]
            omega
          rw [ih (nodup_snoc hnd hm) hle', itemUris_cons, hu]
          rw [List.append_assoc]
          rfl

/-! ### Popularity-stage lemmas -/

theorem wp_map_fst (tracks : List DetTrack) :
    (tracks.filterMap (fun t =>
      match truthyS t.uri with
      | some u => some (u, t.popularity.getD 0)
      | none => none)).map Prod.fst = detUris tracks := by
  induction tracks with
  | nil => rfl
  | cons t rest ih =>
    simp only [List.filterMap_cons, detUris, truthyFilter, List.map_cons]
    cases hu : truthyS t.uri with
    | none =>
      simp only [List.filterMap_cons, hu]
      exact ih
    | some u =>
      simp only [List.filterMap_cons, hu, List.map_cons]
      rw [ih]
      rfl

theorem getTop_facts (gtr : Except Unit (List DetTrack)) (items : List Track) (n : Nat)
    (hnodup : (itemUris items).Nodup)
    (hdet : ∀ dets, gtr = .ok dets →
      (detUris dets).Nodup ∧ ∀ u ∈ detUris dets, u ∈ itemUris items) :
    (getTopTrackUrisByPopularity gtr items n).Nodup ∧
    (∀ x ∈ getTopTrackUrisByPopularity gtr items n, x ∈ itemUris items) ∧
    (getTopTrackUrisByPopularity gtr items n).length ≤ n := by
  have hfb : ∀ k : Nat, k ≤ n →
      (truthyFilter ((items.take k).map Track.uri)).Nodup ∧
      (∀ x ∈ truthyFilter ((items.take k).map Track.uri), x ∈ itemUris items) ∧
      (truthyFilter ((items.take k).map Track.uri)).length ≤ n := by
    intro k hk
    have hsub : (truthyFilter ((items.take k).map Track.uri)).Sublist (itemUris items) :=
      List.Sublist.filterMap truthyS (List.Sublist.map Track.uri (List.take_sublist k items))
    refine ⟨hsub.nodup hnodup, fun x hx => hsub.subset hx, ?_⟩
    calc (truthyFilter ((items.take k).map Track.uri)).length
        ≤ ((items.take k).map Track.uri).length := List.length_filterMap_le _ _
      _ = (items.take k).length := List.length_map _ _
      _ ≤ k := by simp [List.length_take]
      _ ≤ n := hk
  unfold getTopTrackUrisByPopularity
  by_cases h0 : min n items.length = 0
  · simp only [h0, if_pos rfl]
    exact ⟨List.nodup_nil, by simp, by simp⟩
  · simp only [h0, if_neg h0]
    set tk := min n items.length with htk
    have htkn : tk ≤ n := min_le_left _ _
    by_cases hids : (truthyFilter ((items.take 50).map Track.id)).isEmpty
    · simp only [hids, if_pos rfl, if_true]
      exact hfb tk htkn
    · simp only [hids, Bool.false_eq_true, if_false]
      cases gtr with
      | error e => exact hfb tk htkn
      | ok dets =>
        obtain ⟨hdN, hdS⟩ := hdet dets rfl
        set wp := dets.filterMap (fun t =>
          match truthyS t.uri with
          | some u => some (u, t.popularity.getD 0)
          | none => none) with hwp
        set sorted := sortDescBy (fun x => x.2) wp with hsorted
        set uris := (sorted.take tk).map Prod.fst with huris
        have hperm : (sorted.map Prod.fst).Perm (wp.map Prod.fst) :=
          List.Perm.map Prod.fst (sortDescBy_perm _ wp)
        have hwpf : wp.map Prod.fst = detUris dets := wp_map_fst dets
        have hsortedN : (sorted.map Prod.fst).Nodup := by
          refine hperm.symm.nodup ?_
          rw [hwpf]; exact hdN
        have hurisSub : uris.Sublist (sorted.map Prod.fst) :=
          List.Sublist.map Prod.fst (List.take_sublist tk sorted)
        have hurisN : uris.Nodup := hurisSub.nodup hsortedN
        have hurisS : ∀ x ∈ uris, x ∈ itemUris items := by
          intro x hx
          have : x ∈ sorted.map Prod.fst := hurisSub.subset hx
          have : x ∈ wp.map Prod.fst := hperm.mem_iff.mp this
          rw [hwpf] at this
          exact hdS x this
        have hurisL : uris.length ≤ tk := by
          rw [huris, List.length_map]
          exact le_trans (List.length_take_le tk sorted) (le_refl _)
        by_cases htake : tk ≤ uris.length
        · simp only [htake, if_pos rfl, if_true]
          exact ⟨hurisN, hurisS, le_trans hurisL htkn⟩
        · simp only [htake, if_false]
          refine ⟨padFromItems_nodup hurisN, ?_, ?_⟩
          · intro x hx
            rcases padFromItems_sub hx with h | h
            · exact hurisS x h
            · exact h
          · refine le_trans padFromItems_length_le ?_
            have : max uris.length tk = tk := by omega
            rw [this]
            exact htkn

/-! ### Rating-stage lemmas -/

theorem findMatchScan_mem {n : String} {m : List (String × Option String)} {u : String}
    (h : findMatchScan n m = some u) : ∃ e ∈ m, e.2 = some u := by
  induction m with
  | nil => exact absurd h (by simp [findMatchScan])
  | cons e rest ih =>
    obtain ⟨k, v⟩ := e
    simp only [findMatchScan] at h
    by_cases h1 : hasSubStr k n || hasSubStr n k
    · rw [if_pos h1] at h
      exact ⟨(k, v), List.mem_cons_self _ _, h⟩
    · rw [if_neg h1] at h
      by_cases h2 : 4 ≤ n.length && strStarts k n
      · rw [if_pos h2] at h
        exact ⟨(k, v), List.mem_cons_self _ _, h⟩
      · rw [if_neg h2] at h
        obtain ⟨e', he', hv⟩ := ih h
        exact ⟨e', List.mem_cons_of_mem _ he', hv⟩

theorem findMatch_mem {q : String} {m : List (String × Option String)} {u : String}
    (h : findMatch q m = some u) : ∃ e ∈ m, e.2 = some u := by
  simp only [findMatch] at h
  cases ht : truthyS ((m.find? (fun e => e.1 == normName q)).bind Prod.snd) with
  | some v =>
    rw [ht] at h
    have h' : some v = some u := h
    cases h'
    obtain ⟨hb, _⟩ := truthyS_eq_some ht
    cases hf : m.find? (fun e => e.1 == normName q) with
    | none => rw [hf] at hb; exact absurd hb (by simp)
    | some e =>
      rw [hf] at hb
      exact ⟨e, List.mem_of_find?_eq_some hf, hb⟩
  | none =>
    rw [ht] at h
    exact findMatchScan_mem h

/-- Values stored by `mapInsert` come from the old map or the inserted
value. -/
theorem mapInsert_snd {P : Option String → Prop} {m : List (String × Option String)}
    {k : String} {v : Option String} (hm : ∀ e ∈ m, P e.2) (hv : P v) :
    ∀ e ∈ mapInsert m k v, P e.2 := by
  intro e he
  unfold mapInsert at he
  split at he
  · obtain ⟨e', he', heq⟩ := List.mem_map.mp he
    by_cases hk : e'.1 == k
    · rw [if_pos hk] at heq
      subst heq
      exact hv
    · rw [if_neg hk] at heq
      subst heq
      exact hm e' he'
  · rcases List.mem_append.mp he with h | h
    · exact hm e h
    · simp only [List.mem_singleton] at h
      subst h
      exact hv

theorem buildMapAux_snd {P : Option String → Prop} :
    ∀ (pairs : List (String × Option String)) (m : List (String × Option String)),
      (∀ e ∈ m, P e.2) → (∀ p ∈ pairs, P p.2) →
      ∀ e ∈ pairs.foldl (fun acc p => mapInsert acc p.1 p.2) m, P e.2 := by
  intro pairs
  induction pairs with
  | nil => intro m hm _ e he; exact hm e he
  | cons p rest ih =>
    intro m hm hp e he
    exact ih (mapInsert m p.1 p.2)
      (mapInsert_snd hm (hp p (List.mem_cons_self p rest)))
      (fun q hq => hp q (List.mem_cons_of_mem p hq)) e he

theorem buildMap_snd {P : Option String → Prop} {pairs : List (String × Option String)}
    (hp : ∀ p ∈ pairs, P p.2) : ∀ e ∈ buildMap pairs, P e.2 :=
  buildMapAux_snd pairs [] (by intro e he; simp at he) hp

theorem ratingLoop_cons_none {m : List (String × Option String)} {name : String}
    {rest acc : List String} (hu : truthyS (findMatch name m) = none) :
    ratingLoop m (name :: rest) acc = ratingLoop m rest acc := by
  simp only [ratingLoop, hu]

theorem ratingLoop_cons_mem {m : List (String × Option String)} {name : String}
    {rest acc : List String} {u : String} (hu : truthyS (findMatch name m) = some u)
    (hm : u ∈ acc) : ratingLoop m (name :: rest) acc = ratingLoop m rest acc := by
  simp only [ratingLoop, hu, if_pos hm]

theorem ratingLoop_cons_new {m : List (String × Option String)} {name : String}
    {rest acc : List String} {u : String} (hu : truthyS (findMatch name m) = some u)
    (hm : u ∉ acc) : ratingLoop m (name :: rest) acc = ratingLoop m rest (acc ++ [u]) := by
  simp only [ratingLoop, hu, if_neg hm]

theorem ratingLoop_nodup {m : List (String × Option String)} :
    ∀ {names : List String} {acc : List String}, acc.Nodup →
      (ratingLoop m names acc).Nodup := by
  intro names
  induction names with
  | nil => intro acc h; exact h
  | cons name rest ih =>
    intro acc h
    cases hu : truthyS (findMatch name m) with
    | none => rw [ratingLoop_cons_none hu]; exact ih h
    | some u =>
      by_cases hm : u ∈ acc
      · rw [ratingLoop_cons_mem hu hm]; exact ih h
      · rw [ratingLoop_cons_new hu hm]; exact ih (nodup_snoc h hm)

theorem ratingLoop_sub {m : List (String × Option String)} :
    ∀ {names : List String} {acc : List String} {x : String},
      x ∈ ratingLoop m names acc →
      x ∈ acc ∨ ((∃ e ∈ m, e.2 = some x) ∧ x.isEmpty = false) := by
  intro names
  induction names with
  | nil => intro acc x hx; exact Or.inl hx
  | cons name rest ih =>
    intro acc x hx
    cases hu : truthyS (findMatch name m) with
    | none =>
      rw [ratingLoop_cons_none hu] at hx
      exact ih hx
    | some u =>
      by_cases hm : u ∈ acc
      · rw [ratingLoop_cons_mem hu hm] at hx
        exact ih hx
      · rw [ratingLoop_cons_new hu hm] at hx
        rcases ih hx with h | h
        · rcases List.mem_append.mp h with h | h
          · exact Or.inl h
          · simp only [List.mem_singleton] at h
            subst h
            obtain ⟨hfm, hne⟩ := truthyS_eq_some hu
            exact Or.inr ⟨findMatch_mem hfm, hne⟩
        · exact Or.inr h

theorem ratingLoop_length {m : List (String × Option String)} :
    ∀ {names : List String} {acc : List String},
      (ratingLoop m names acc).length ≤ acc.length + names.length := by
  intro names
  induction names with
  | nil => intro acc; simp [ratingLoop]
  | cons name rest ih =>
    intro acc
    cases hu : truthyS (findMatch name m) with
    | none =>
      rw [ratingLoop_cons_none hu]
      refine le_trans ih ?_
      simp only [List.length_cons]
      omega
    | some u =>
      by_cases hm : u ∈ acc
      · rw [ratingLoop_cons_mem hu hm]
        refine le_trans ih ?_
        simp only [List.length_cons]
        omega
      · rw [ratingLoop_cons_new hu hm]
        refine le_trans ih ?_
        simp only [List.length_append, List.length_cons, List.length_nil]
        omega

/-! ### Base-stage facts and the C2 theorem -/

theorem selectBase_facts (albumUrl : Option String) (aotyOrderRaw : List String)
    (gtr : Except Unit (List DetTrack)) (items : List Track)
    (hnodup : (itemUris items).Nodup)
    (hdet : ∀ dets, gtr = .ok dets →
      (detUris dets).Nodup ∧ ∀ u ∈ detUris dets, u ∈ itemUris items) :
    (selectBase albumUrl aotyOrderRaw gtr items).Nodup ∧
    (∀ x ∈ selectBase albumUrl aotyOrderRaw gtr items, x ∈ itemUris items) ∧
    (selectBase albumUrl aotyOrderRaw gtr items).length ≤ TRACKS_PER_ALBUM := by
  have hpop := getTop_facts gtr items TRACKS_PER_ALBUM hnodup hdet
  unfold selectBase
  by_cases h1 : (truthyS albumUrl).isNone
  · simp only [h1, if_true]
    exact hpop
  · simp only [h1, Bool.false_eq_true, if_false]
    by_cases h2 : (if (truthyS albumUrl).isSome = true then aotyOrderRaw else []).isEmpty
    · simp only [h2, if_true]
      exact hpop
    · simp only [h2, Bool.false_eq_true, if_false]
      set names := (if (truthyS albumUrl).isSome = true then aotyOrderRaw else []) with hnames
      set byNorm := buildMap ((items.map (fun t => (normName t.name, t.uri))).filter
        (fun e => !e.1.isEmpty)) with hbn
      have hP : ∀ e ∈ byNorm, ∀ s, e.2 = some s → s.isEmpty = false →
          s ∈ itemUris items := by
        refine buildMap_snd
          (P := fun v => ∀ s, v = some s → s.isEmpty = false → s ∈ itemUris items) ?_
        intro p hp s hs hse
        obtain ⟨hpm, _⟩ := List.mem_filter.mp hp
        obtain ⟨t, ht, hteq⟩ := List.mem_map.mp hpm
        have : p.2 = t.uri := by rw [← hteq]
        rw [this] at hs
        refine mem_itemUris ht ?_
        rw [hs]
        simp only [truthyS, hse, Bool.false_eq_true, if_false]
      refine ⟨ratingLoop_nodup List.nodup_nil, ?_, ?_⟩
      · intro x hx
        rcases ratingLoop_sub hx with h | ⟨⟨e, he, hev⟩, hne⟩
        · simp at h
        · exact hP e he x hev hne
      · refine le_trans ratingLoop_length ?_
        simp only [List.length_nil, Nat.zero_add, List.length_take]
        omega

/-- C2: the cross-catalog track selector never returns duplicate track
identifiers within one album's result, whichever of the rating-match,
popularity-fallback and padding stages contributed; and when the destination
catalog reports fewer than `TRACKS_PER_ALBUM` tracks for the album, it
returns exactly that many identifiers.  Hypotheses record the catalog
contract: the album's truthy track uris are pairwise distinct, a `getTracks`
response carries the same (distinct) uris as the album's own tracks, and
every reported track carries a uri. -/
theorem c2_selector_invariants (albumUrl : Option String) (aotyOrderRaw : List String)
    (gtr : Except Unit (List DetTrack)) (items : List Track)
    (hnodup : (itemUris items).Nodup)
    (hdet : ∀ dets, gtr = .ok dets →
      (detUris dets).Nodup ∧ ∀ u ∈ detUris dets, u ∈ itemUris items)
    (hall : ∀ t ∈ items, (truthyS t.uri).isSome) :
    (selectAlbumTracks albumUrl aotyOrderRaw gtr items).Nodup ∧
    (items.length < TRACKS_PER_ALBUM →
      (selectAlbumTracks albumUrl aotyOrderRaw gtr items).length = items.length) := by
  obtain ⟨hbN, hbS, hbL⟩ := selectBase_facts albumUrl aotyOrderRaw gtr items hnodup hdet
  set base := selectBase albumUrl aotyOrderRaw gtr items with hbase
  have hiul : (itemUris items).length = items.length := itemUris_length hall
  have hfin : (base ++ itemUris items).toFinset = (itemUris items).toFinset := by
    rw [List.toFinset_append]
    refine Finset.union_eq_right.mpr ?_
    intro x hx
    exact List.mem_toFinset.mpr (hbS x (List.mem_toFinset.mp hx))
  constructor
  · show (if base.length < TRACKS_PER_ALBUM then
        padFromItems items base TRACKS_PER_ALBUM else base).Nodup
    split
    · exact padFromItems_nodup hbN
    · exact hbN
  · intro hm
    show (if base.length < TRACKS_PER_ALBUM then
        padFromItems items base TRACKS_PER_ALBUM else base).length = items.length
    have hblt : base.length < TRACKS_PER_ALBUM := by
      have : base.length ≤ (itemUris items).length := by
        have hsubf : base.toFinset ⊆ (itemUris items).toFinset := by
          intro x hx
          exact List.mem_toFinset.mpr (hbS x (List.mem_toFinset.mp hx))
        calc base.length = base.toFinset.card := (List.toFinset_card_of_nodup hbN).symm
          _ ≤ (itemUris items).toFinset.card := Finset.card_le_card hsubf
          _ = (itemUris items).length := List.toFinset_card_of_nodup hnodup
      omega
    rw [if_pos hblt]
    rw [padFromItems_card hbN (le_of_lt hblt), hfin,
      List.toFinset_card_of_nodup hnodup, hiul]
    omega

/-- Witness for C2 at a concrete input: a two-track album with no AOTY
order and a failed `getTracks` call yields its two distinct uris. -/
theorem c2_selector_invariants_witness :
    (selectAlbumTracks none [] (.error ())
      [⟨some "i1", some "u1", "A"⟩, ⟨some "i2", some "u2", "B"⟩]).Nodup ∧
    ((([⟨some "i1", some "u1", "A"⟩, ⟨some "i2", some "u2", "B"⟩] : List Track).length
        < TRACKS_PER_ALBUM) →
      (selectAlbumTracks none [] (.error ())
        [⟨some "i1", some "u1", "A"⟩, ⟨some "i2", some "u2", "B"⟩]).length
      = ([⟨some "i1", some "u1", "A"⟩, ⟨some "i2", some "u2", "B"⟩] : List Track).length) :=
  c2_selector_invariants none [] (.error ())
    [⟨some "i1", some "u1", "A"⟩, ⟨some "i2", some "u2", "B"⟩]
    (by decide) (fun dets h => nomatch h) (by decide)

/-! ## C9 — substring and trim lemmas -/

theorem isPrefixOfAppend : ∀ {pat l : List Char}, pat.isPrefixOf l = true →
    ∃ t, l = pat ++ t := by
  intro pat
  induction pat with
  | nil => intro l _; exact ⟨l, rfl⟩
  | cons p ps ih =>
    intro l h
    cases l with
    | nil => exact absurd h (by simp [List.isPrefixOf])
    | cons c t =>
      simp only [List.isPrefixOf, Bool.and_eq_true, beq_iff_eq] at h
      obtain ⟨hpc, hrest⟩ := h
      obtain ⟨u, hu⟩ := ih hrest
      exact ⟨u, by rw [hpc, hu]; rfl⟩

theorem leadOfAppend : ∀ {pat l : List Char} (r : List Char),
    pat.isPrefixOf l = true → pat.isPrefixOf (l ++ r) = true := by
  intro pat
  induction pat with
  | nil => intro l r _; simp [List.isPrefixOf]
  | cons p ps ih =>
    intro l r h
    cases l with
    | nil => exact absurd h (by simp [List.isPrefixOf])
    | cons c t =>
      simp only [List.isPrefixOf, Bool.and_eq_true, beq_iff_eq] at h ⊢
      exact ⟨h.1, ih r h.2⟩

theorem fmi_cons_pos {pat : List Char} {l : List Char}
    (hp : pat.isPrefixOf l = true) : firstMatchIdx pat l = some 0 := by
  cases l with
  | nil => simp only [firstMatchIdx, if_pos hp]
  | cons c t => simp only [firstMatchIdx, if_pos hp]

theorem fmi_cons_neg {pat : List Char} {c : Char} {t : List Char}
    (hp : ¬pat.isPrefixOf (c :: t) = true) :
    firstMatchIdx pat (c :: t) = (firstMatchIdx pat t).map (· + 1) := by
  simp only [firstMatchIdx, if_neg hp]

theorem fmi_someAppendRight : ∀ {pat m : List Char} (r : List Char),
    (firstMatchIdx pat m).isSome → (firstMatchIdx pat (m ++ r)).isSome := by
  intro pat m
  induction m with
  | nil =>
    intro r h
    unfold firstMatchIdx at h
    by_cases hp : pat.isPrefixOf ([] : List Char)
    · have hp' : pat = [] := by
        obtain ⟨t, ht⟩ := isPrefixOfAppend hp
        cases pat with
        | nil => rfl
        | cons a as => exact absurd ht (by simp)
      subst hp'
      rw [fmi_cons_pos (by simp [List.isPrefixOf])]
      rfl
    · rw [if_neg hp] at h
      exact absurd h (by simp)
  | cons c m' ih =>
    intro r h
    show (firstMatchIdx pat (c :: (m' ++ r))).isSome = true
    by_cases hp2 : pat.isPrefixOf (c :: (m' ++ r))
    · rw [fmi_cons_pos hp2]
      rfl
    · have hp : ¬pat.isPrefixOf (c :: m') = true := by
        intro hc
        have := leadOfAppend r hc
        rw [show (c :: m') ++ r = c :: (m' ++ r) from rfl] at this
        exact hp2 this
      rw [fmi_cons_neg hp] at h
      have h' : (firstMatchIdx pat m').isSome := by
        cases hfm : firstMatchIdx pat m' with
        | none => rw [hfm] at h; exact absurd h (by simp)
        | some k => simp
      have hrec := ih r h'
      rw [fmi_cons_neg hp2]
      cases hfm : firstMatchIdx pat (m' ++ r) with
      | none => rw [hfm] at hrec; exact absurd hrec (by simp)
      | some k => rfl

theorem fmi_someAppendLeft : ∀ (u : List Char) {pat m : List Char},
    (firstMatchIdx pat m).isSome → (firstMatchIdx pat (u ++ m)).isSome := by
  intro u
  induction u with
  | nil => intro pat m h; exact h
  | cons c u' ih =>
    intro pat m h
    show (firstMatchIdx pat (c :: (u' ++ m))).isSome
    by_cases hp : pat.isPrefixOf (c :: (u' ++ m))
    · rw [fmi_cons_pos hp]
      rfl
    · rw [fmi_cons_neg hp]
      have hrec := ih h
      cases hfm : firstMatchIdx pat (u' ++ m) with
      | none => rw [hfm] at hrec; exact absurd hrec (by simp)
      | some k => rfl

theorem dropWhileHead {p : Char → Bool} :
    ∀ {l : List Char} {c : Char} {t : List Char}, l.dropWhile p = c :: t → p c = false := by
  intro l
  induction l with
  | nil => intro c t h; exact absurd h (by simp)
  | cons a l' ih =>
    intro c t h
    rw [List.dropWhile_cons] at h
    by_cases hp : p a
    · rw [if_pos hp] at h
      exact ih h
    · rw [if_neg hp] at h
      cases h
      simpa using hp

theorem jsTrimL_decomp (l : List Char) : ∃ u v, l = u ++ (jsTrimL l ++ v) := by
  refine ⟨l.takeWhile isJsSpace,
    ((l.dropWhile isJsSpace).reverse.takeWhile isJsSpace).reverse, ?_⟩
  conv_lhs => rw [← List.takeWhile_append_dropWhile (p := isJsSpace) (l := l)]
  congr 1
  conv_lhs => rw [← List.reverse_reverse (l.dropWhile isJsSpace),
    ← List.takeWhile_append_dropWhile (p := isJsSpace)
      (l := (l.dropWhile isJsSpace).reverse)]
  rw [List.reverse_append]
  rfl

theorem jsTrimL_head {l : List Char} {c : Char} {t : List Char}
    (h : jsTrimL l = c :: t) : isJsSpace c = false := by
  obtain ⟨u, v, hd⟩ := jsTrimL_decomp l
  have hm : l.dropWhile isJsSpace = jsTrimL l ++
      ((l.dropWhile isJsSpace).reverse.takeWhile isJsSpace).reverse := by
    conv_lhs => rw [← List.reverse_reverse (l.dropWhile isJsSpace),
      ← List.takeWhile_append_dropWhile (p := isJsSpace)
        (l := (l.dropWhile isJsSpace).reverse)]
    rw [List.reverse_append]
    rfl
  rw [h] at hm
  exact dropWhileHead hm

theorem dropWhileAll {p : Char → Bool} :
    ∀ {l : List Char}, l.dropWhile p = [] → ∀ x ∈ l, p x = true := by
  intro l
  induction l with
  | nil => intro _ x hx; simp at hx
  | cons a l' ih =>
    intro h x hx
    rw [List.dropWhile_cons] at h
    by_cases hp : p a
    · rcases List.mem_cons.mp hx with hx | hx
      · subst hx; exact hp
      · rw [if_pos hp] at h
        exact ih h x hx
    · rw [if_neg hp] at h
      exact absurd h (by simp)

theorem jsTrimL_ne_nil {c : Char} {r : List Char} (h : isJsSpace c = false) :
    jsTrimL (c :: r) ≠ [] := by
  intro hnil
  unfold jsTrimL at hnil
  rw [List.dropWhile_cons, h] at hnil
  simp only [Bool.false_eq_true, if_false] at hnil
  rw [List.reverse_eq_nil_iff] at hnil
  have := dropWhileAll hnil c (by simp)
  rw [h] at this
  exact absurd this (by simp)

theorem fmi_zero {pat l : List Char} (h : firstMatchIdx pat l = some 0) :
    pat.isPrefixOf l = true := by
  by_cases hp : pat.isPrefixOf l
  · exact hp
  · cases l with
    | nil =>
      unfold firstMatchIdx at h
      rw [if_neg hp] at h
      exact absurd h (by simp)
    | cons c t =>
      rw [fmi_cons_neg hp] at h
      cases hfm : firstMatchIdx pat t with
      | none => rw [hfm] at h; exact absurd h (by simp)
      | some k => rw [hfm] at h; simp at h

theorem mk_isEmpty_false {l : List Char} (h : l ≠ []) :
    (String.mk l).isEmpty = false := by
  rw [Bool.eq_false_iff]
  intro he
  rw [String.isEmpty_iff] at he
  rw [String.ext_iff] at he
  exact h he

theorem jsTrimStr_data (s : String) : (jsTrimStr s).data = jsTrimL s.data := rfl

/-- When the trimmed anchor text contains the delimiter, the two tiers build
the same fallback entry from it and the Playwright keep-filter retains it. -/
theorem fb_head (a : Anchor) (ha : hasSubL (jsTrimL a.text.data) " - ".data = true)
    (i : Nat) :
    ∃ k, firstMatchIdx " - ".data (jsTrimStr a.text).data = some k ∧ 0 < k ∧
      pwFbEntry i a = ⟨i + 1, jsTrimStr (strTake (jsTrimStr a.text) k),
        jsTrimStr (strDrop (jsTrimStr a.text) (k + 3)), truthyS a.href⟩ ∧
      keepEntry (pwFbEntry i a) = true := by
  unfold hasSubL at ha
  cases hk : firstMatchIdx " - ".data (jsTrimL a.text.data) with
  | none => rw [hk] at ha; exact absurd ha (by simp)
  | some k =>
    -- the trimmed text is non-empty, with a non-space head
    have hTne : jsTrimL a.text.data ≠ [] := by
      intro hnil
      rw [hnil] at hk
      unfold firstMatchIdx at hk
      rw [if_neg (by simp [List.isPrefixOf])] at hk
      exact absurd hk (by simp)
    obtain ⟨c, t, hct⟩ : ∃ c t, jsTrimL a.text.data = c :: t := by
      cases hT' : jsTrimL a.text.data with
      | nil => exact absurd hT' hTne
      | cons c t => exact ⟨c, t, rfl⟩
    have hc : isJsSpace c = false := jsTrimL_head hct
    have hkpos : 0 < k := by
      by_contra hk0
      have hk0' : k = 0 := by omega
      subst hk0'
      have hpre := fmi_zero hk
      obtain ⟨u, hu⟩ := isPrefixOfAppend hpre
      rw [hct] at hu
      have hcsp : c = ' ' := by
        have := congrArg (fun l => l.head?) hu
        simpa using this
      rw [hcsp] at hc
      exact absurd hc (by decide)
    have hk' : firstMatchIdx " - ".data (jsTrimStr a.text).data = some k := by
      rw [jsTrimStr_data]; exact hk
    have hentry : pwFbEntry i a = ⟨i + 1, jsTrimStr (strTake (jsTrimStr a.text) k),
        jsTrimStr (strDrop (jsTrimStr a.text) (k + 3)), truthyS a.href⟩ := by
      simp only [pwFbEntry, hk', if_pos hkpos]
    have hart : (jsTrimStr (strTake (jsTrimStr a.text) k)).isEmpty = false := by
      have htake : (strTake (jsTrimStr a.text) k).data = c :: t.take (k - 1) := by
        show ((jsTrimStr a.text).data.take k) = c :: t.take (k - 1)
        rw [jsTrimStr_data, hct]
        obtain ⟨k', hkk⟩ : ∃ k', k = k' + 1 := ⟨k - 1, by omega⟩
        subst hkk
        rw [List.take_succ_cons]
        norm_num
      show (String.mk (jsTrimL (strTake (jsTrimStr a.text) k).data)).isEmpty = false
      rw [htake]
      exact mk_isEmpty_false (jsTrimL_ne_nil hc)
    refine ⟨k, hk', hkpos, hentry, ?_⟩
    rw [hentry]
    unfold keepEntry
    simp only [hart, Bool.not_false, Bool.true_or]

/-- Under the all-anchors-delimited hypothesis, the Playwright fallback
pipeline (filter by raw text, cap, enumerate, split, filter empties) agrees
with the ZenRows `.each` loop started at any index. -/
theorem fb_lists_eq (A : List Anchor) : ∀ (i : Nat),
    (∀ a ∈ A, hasSubL (jsTrimL a.text.data) " - ".data = true) →
    (((A.take (TOP_N - i)).enumFrom i).map (fun e => pwFbEntry e.1 e.2)).filter keepEntry
      = zrFallbackAux i A := by
  induction A with
  | nil => intro i h; simp [zrFallbackAux]
  | cons a rest ih =>
    intro i h
    by_cases hi : TOP_N ≤ i
    · have h0 : TOP_N - i = 0 := by omega
      rw [h0]
      simp only [List.take_zero, List.enumFrom_nil, List.map_nil, List.filter_nil]
      simp [zrFallbackAux, hi]
    · have hk : TOP_N - i = (TOP_N - (i + 1)) + 1 := by omega
      rw [hk, List.take_succ_cons, List.enumFrom_cons]
      simp only [List.map_cons]
      obtain ⟨k, hkidx, hkpos, hentry, hkeep⟩ :=
        fb_head a (h a (List.mem_cons_self a rest)) i
      rw [List.filter_cons, hkeep]
      simp only [if_true]
      rw [ih (i + 1) (fun x hx => h x (List.mem_cons_of_mem a hx))]
      rw [hentry]
      simp only [zrFallbackAux, if_neg hi, hkidx]

/-- C9 counterexample: on a document with no marker elements whose first
album anchor lacks the `' - '` delimiter, the Playwright extraction assigns
rank 1 to the delimited anchor while the ZenRows extraction assigns rank 2
(the skipped anchor still consumes an index), so the two album lists
differ. -/
def c9doc : ChartDoc :=
  ⟨[], [], [⟨"junk", some "/album/x"⟩, ⟨"A - B", some "/album/y"⟩]⟩

/-- C9 counterexample theorem: the two tiers disagree on `c9doc`. -/
theorem c9_counterexample :
    extractPlaywrightChart c9doc = [⟨1, "A", "B", some "/album/y"⟩] ∧
    extractZenRowsChart c9doc = [⟨2, "A", "B", some "/album/y"⟩] ∧
    extractPlaywrightChart c9doc ≠ extractZenRowsChart c9doc :=
  ⟨by decide, by decide, by decide⟩

/-- C9 as amended: the two tiers coincide on the anchor-fallback path — for
documents with no `.albumTitle`/`.artistTitle` elements in which every
album-link anchor's trimmed text contains `' - '` — but not in general: an
undelimited anchor shifts ZenRows ranks (see the counterexample), and the
marker-pair paths use different container heuristics. -/
theorem c9_fallback_agreement (d : ChartDoc)
    (hA : d.albumTitles = []) (hB : d.artistTitles = [])
    (hd : ∀ a ∈ docAlbumAnchors d, hasSubStr (jsTrimStr a.text) " - " = true) :
    extractPlaywrightChart d = extractZenRowsChart d := by
  have hd' : ∀ a ∈ docAlbumAnchors d,
      hasSubL (jsTrimL a.text.data) " - ".data = true := hd
  unfold extractPlaywrightChart extractZenRowsChart
  rw [hA, hB]
  simp only [List.take_nil, List.isEmpty_nil, Bool.not_true, Bool.or_self,
    Bool.false_eq_true, if_false]
  have hfil : (docAlbumAnchors d).filter (fun a => hasSubStr a.text " - ")
      = docAlbumAnchors d := by
    refine List.filter_eq_self.mpr ?_
    intro a ha
    have h1 := hd' a ha
    obtain ⟨u, v, hdec⟩ := jsTrimL_decomp a.text.data
    show hasSubL a.text.data " - ".data = true
    rw [hdec]
    unfold hasSubL at h1 ⊢
    exact fmi_someAppendLeft u (fmi_someAppendRight v h1)
  rw [hfil]
  have hmain := fb_lists_eq (docAlbumAnchors d) 0 hd'
  rw [show TOP_N - 0 = TOP_N from rfl] at hmain
  exact hmain

/-- Witness for C9 at a concrete input: a single delimited anchor yields the
same single entry from both tiers. -/
theorem c9_fallback_agreement_witness :
    extractPlaywrightChart ⟨[], [], [⟨"A - B", some "/album/y"⟩]⟩
      = extractZenRowsChart ⟨[], [], [⟨"A - B", some "/album/y"⟩]⟩ :=
  c9_fallback_agreement ⟨[], [], [⟨"A - B", some "/album/y"⟩]⟩ rfl rfl (by decide)

end GenreTourist
